import Mathlib

/-!
Shallow embedding, in Lean 4, of the lint-orchestration core of the
vscode-tslinter extension (server request handlers in `src/unnamed/part_000`,
with the diagnostics-only variant in `src/server/src/server.ts`).

Strings from the JavaScript source are modelled as `List Char` so that every
operation (splitting a path on the separator, joining, appending) is a
structurally recursive, kernel-computable function.  `str` converts a Lean
string literal to this representation.
-/

namespace TSLinter

/-- Convert a string literal to the `List Char` representation used throughout
the embedding. -/
def str (s : String) : List Char := s.data

/-! ### Versions and the loaded library (part_000 lines 151-158) -/

/-- A parsed semantic version, as the external `semver` package reads
`library.Linter.VERSION`. -/
structure SemVersion where
  major : Nat
  minor : Nat
  patch : Nat
deriving DecidableEq, Repr

/-- The loaded tslint library (`require(tslintPath)`).  The only observation the
server makes of it before invoking lint is `library.Linter.VERSION`;
`linterVersion = none` models the reads that throw (no `Linter` class or no
`VERSION` field), which the source catches at part_000 lines 153-156. -/
structure Library where
  linterVersion : Option SemVersion
deriving DecidableEq, Repr

/-- Modelled from the spec: the external `semver.satisfies(version, ` the range
`<= 3.x.x)` test used at part_000 line 157 — a version satisfies the range
exactly when its major component is at most 3.  The `semver` package itself is
an external dependency, not part of this repository. -/
def satisfiesLe3x (v : SemVersion) : Bool := decide (v.major ≤ 3)

/-- The version the probe ends up testing: `library.Linter.VERSION` when the
read succeeds, else the default `1.0.0` set at part_000 line 152. -/
def effectiveVersion (library : Library) : SemVersion :=
  library.linterVersion.getD ⟨1, 0, 0⟩

/-- part_000 lines 151-158: `isTsLintVersion4`.  Defaults the version to
`1.0.0`, best-effort reads `library.Linter.VERSION`, and returns the negation
of `semver.satisfies(version, ` the range `<= 3.x.x)`. -/
def isTsLintVersion4 (library : Library) : Bool :=
  ! satisfiesLe3x (effectiveVersion library)

/-! ### Positions, diagnostics (part_000 lines 176-199) -/

/-- A line/character position (LSP `Position`). -/
structure Position where
  line : Nat
  character : Nat
deriving DecidableEq, Repr

/-- An LSP `Range`.  The source field `end` is a Lean keyword; it is named
`stop` here. -/
structure Range where
  start : Position
  stop : Position
deriving DecidableEq, Repr

/-- LSP `DiagnosticSeverity`. -/
inductive Severity where
  | error
  | warning
  | information
  | hint
deriving DecidableEq, Repr

/-- A tslint `Replacement`: a span `[start, stop)` of character offsets in the
linted text plus the replacement text (source fields `start`, `end`, `text`;
`end` is renamed `stop`). -/
structure Replacement where
  start : Nat
  stop : Nat
  text : List Char
deriving DecidableEq, Repr

/-- A tslint `Fix`, as the fix handler at part_000 lines 273-290 distinguishes
the shapes: a tslint4 fix object carrying a `replacements` field, or a tslint5
fix that is either a single `Replacement` or an array of them. -/
inductive Fix where
  | withReplacements (replacements : List Replacement)
  | single (r : Replacement)
  | list (rs : List Replacement)
deriving DecidableEq, Repr

/-- A tslint `RuleFailure`, restricted to the observations the server makes:
`getFailure()`, `getRuleName()`, the start/end line-and-character positions,
and `getFix()`.  `ruleName = none` models an absent rule name; `fix = none`
models both a missing `getFix` method (tslint < 3.17) and a fix-less failure,
the two cases the guard at part_000 line 272 rejects. -/
structure RuleFailure where
  failureMessage : List Char
  ruleName : Option (List Char)
  startPos : Position
  endPos : Position
  fix : Option Fix
deriving DecidableEq, Repr

/-- An LSP `Diagnostic` as built by `makeDiagnostic`. -/
structure Diagnostic where
  severity : Severity
  message : List Char
  range : Range
  code : Option (List Char)
  source : List Char
deriving DecidableEq, Repr

/-- JavaScript truthiness of the string-or-undefined `problem.getRuleName()`:
`undefined` and the empty string are falsy, every other string is truthy. -/
def jsTruthyStr : Option (List Char) → Bool
  | none => false
  | some s => ! s.isEmpty

/-- part_000 lines 176-199: `makeDiagnostic`.  Message is
`getFailure() (getRuleName())` when the rule name is truthy, else the bare
`getFailure()`; severity is fixed at warning; the range copies the failure's
start/end line-and-character pairs; `code` is the rule name and `source` is
`tslinter`. -/
def makeDiagnostic (problem : RuleFailure) : Diagnostic :=
  let message :=
    if jsTruthyStr problem.ruleName then
      problem.failureMessage ++ str r" (" ++ problem.ruleName.getD [] ++ str r")"
    else
      problem.failureMessage
  { severity := Severity.warning
    message := message
    range := ⟨problem.startPos, problem.endPos⟩
    code := problem.ruleName
    source := str r"tslinter" }

/-- part_000 lines 107-112: the run handler maps `makeDiagnostic` over the
failure list in order (a `forEach` that pushes one diagnostic per failure). -/
def toDiagnostics (failures : List RuleFailure) : List Diagnostic :=
  failures.map makeDiagnostic

/-! ### Claim theorems: generation detection (C7) and the diagnostic mapper (C8) -/

/-- C7: `isTsLintVersion4` reads the library's version best-effort, treats an
absent or unreadable version as the pre-modern `1.0.0`, and classifies the
library as legacy (returns `false`) exactly when the effective version
satisfies the `<= 3.x` range; being a pure function of the library, calling it
twice on the same loaded library yields the same classification. -/
theorem detectGeneration_spec (library : Library) :
    ((isTsLintVersion4 library = false) ↔ (effectiveVersion library).major ≤ 3) ∧
    (library.linterVersion = none → isTsLintVersion4 library = false) ∧
    (∀ l2 : Library, l2 = library →
      isTsLintVersion4 l2 = isTsLintVersion4 library) := by
  refine ⟨?_, ?_, ?_⟩
  · simp [isTsLintVersion4, satisfiesLe3x]
  · intro h
    simp [isTsLintVersion4, satisfiesLe3x, effectiveVersion, h]
  · intro l2 h
    rw [h]

/-- C7 witness: a library with an unreadable version is classified legacy, by
the theorem at the concrete input `⟨none⟩`. -/
theorem detectGeneration_spec_witness :
    isTsLintVersion4 ⟨none⟩ = false :=
  (detectGeneration_spec ⟨none⟩).2.1 rfl

/-- C8: the diagnostic mapper is pure, total and order-preserving (it maps
`makeDiagnostic` over the failures positionally); each diagnostic's message is
the failure message suffixed with the parenthesised rule id when a rule id is
present (truthy, i.e. non-empty) and the bare message otherwise; severity is
always warning; the range copies the failure's start/end positions verbatim;
and running the mapper twice on the same failure list yields the same list. -/
theorem toDiagnostics_spec (failures : List RuleFailure) :
    (toDiagnostics failures).length = failures.length ∧
    (∀ (i : Nat) (f : RuleFailure), failures[i]? = some f →
      (toDiagnostics failures)[i]? = some (makeDiagnostic f)) ∧
    (∀ f : RuleFailure,
      (makeDiagnostic f).severity = Severity.warning ∧
      (makeDiagnostic f).range.start = f.startPos ∧
      (makeDiagnostic f).range.stop = f.endPos ∧
      (∀ r, f.ruleName = some r → r ≠ [] →
        (makeDiagnostic f).message =
          f.failureMessage ++ str r" (" ++ r ++ str r")") ∧
      (f.ruleName = none → (makeDiagnostic f).message = f.failureMessage)) ∧
    toDiagnostics failures = toDiagnostics failures := by
  refine ⟨by simp [toDiagnostics], ?_, ?_, rfl⟩
  · intro i f h
    simp [toDiagnostics, h]
  · intro f
    refine ⟨rfl, rfl, rfl, ?_, ?_⟩
    · intro r hr hne
      simp [makeDiagnostic, jsTruthyStr, hr, hne]
    · intro h
      simp [makeDiagnostic, jsTruthyStr, h]

/-- C8 witness: the theorem applied to a concrete one-failure list, with the
formatted message, warning severity and verbatim range evaluated there. -/
theorem toDiagnostics_spec_witness :
    (toDiagnostics [⟨str r"msg", some (str r"rule"), ⟨1, 2⟩, ⟨3, 4⟩, none⟩]).length = 1 ∧
    (makeDiagnostic ⟨str r"msg", some (str r"rule"), ⟨1, 2⟩, ⟨3, 4⟩, none⟩).message =
      str r"msg" ++ str r" (" ++ str r"rule" ++ str r")" ∧
    (makeDiagnostic ⟨str r"msg", some (str r"rule"), ⟨1, 2⟩, ⟨3, 4⟩, none⟩).severity =
      Severity.warning :=
  ⟨(toDiagnostics_spec [⟨str r"msg", some (str r"rule"), ⟨1, 2⟩, ⟨3, 4⟩, none⟩]).1,
   ((toDiagnostics_spec [⟨str r"msg", some (str r"rule"), ⟨1, 2⟩, ⟨3, 4⟩, none⟩]).2.2.1
     ⟨str r"msg", some (str r"rule"), ⟨1, 2⟩, ⟨3, 4⟩, none⟩).2.2.2.1 (str r"rule") rfl
     (by decide),
   ((toDiagnostics_spec [⟨str r"msg", some (str r"rule"), ⟨1, 2⟩, ⟨3, 4⟩, none⟩]).2.2.1
     ⟨str r"msg", some (str r"rule"), ⟨1, 2⟩, ⟨3, 4⟩, none⟩).1⟩

/-! ### POSIX path operations used by `getConfiguration`
(part_000 lines 160-174, identical in server.ts lines 186-200)

The source manipulates paths with `path.sep`, `String.prototype.split`,
`Array.prototype.slice`/`join`, `path.join` and `path.parse(...).dir`.  The
embedding fixes the POSIX separator `/` (Node's `path.sep` on the platforms the
extension targets) and gives structurally recursive models of these functions
on `List Char`. -/

/-- JavaScript `s.split(sep)` for a one-character separator: always returns a
non-empty list; the empty string splits to `[[]]`. -/
def splitSep (sep : Char) : List Char → List (List Char)
  | [] => [[]]
  | c :: rest =>
    if c = sep then [] :: splitSep sep rest
    else
      match splitSep sep rest with
      | [] => [[c]]
      | h :: t => (c :: h) :: t

/-- JavaScript `parts.join(sep)`. -/
def joinSep (sep : Char) : List (List Char) → List Char
  | [] => []
  | [x] => x
  | x :: y :: rest => x ++ sep :: joinSep sep (y :: rest)

/-- Node `path.join(dir, name)` (POSIX), restricted to the shapes the source
produces: an empty `dir` yields the bare `name` (a cwd-relative path), a `dir`
ending in the separator (the root) is concatenated without inserting another
separator, and otherwise a separator is inserted. -/
def pathJoin (dir name : List Char) : List Char :=
  if dir = [] then name
  else if dir.getLast? = some '/' then dir ++ name
  else dir ++ '/' :: name

/-- Node `path.parse(filePath).dir` (POSIX): everything before the last
separator, with the filesystem root kept as `/`; a separator-free path has the
empty dir.  Node's `path.dirname` agrees on the absolute file paths the server
handles, so this also models the `path.dirname(filePath)` call in
`loadLibrary` (part_000 line 117). -/
def pathParseDir (filePath : List Char) : List Char :=
  if (splitSep '/' filePath).length = 1 then []
  else if joinSep '/' (splitSep '/' filePath).dropLast = [] then ['/']
  else joinSep '/' (splitSep '/' filePath).dropLast

/-- The configuration file name searched for by the resolver. -/
def tslintJson : List Char := str r"tslint.json"

/-- A loaded tslint configuration, identified by the path
`linter.loadConfigurationFromPath` was given (the parsed rule set itself is
opaque to the server). -/
structure Config where
  sourcePath : List Char
deriving DecidableEq, Repr

/-- The `while` loop of `getConfiguration` (part_000 lines 163-170): while no
`tslint.json` exists in the current directory, split the directory on the
separator; if only one component remains, fail; otherwise drop the last
component and re-join.  The loop variable is the directory string, exactly as
in the source (the source computes the split once per iteration and uses it
twice; it is repeated here).  The fuel argument is only a recursion bound, and
`(splitSep sep d).length` fuel is always sufficient because each iteration
removes exactly one component (`configSearch_eq_find` below makes this
precise). -/
def configSearch (existsSync : List Char → Bool) : Nat → List Char → Option (List Char)
  | 0, _ => none
  | fuel + 1, currentDirectory =>
    if existsSync (pathJoin currentDirectory tslintJson) then
      some currentDirectory
    else if (splitSep '/' currentDirectory).length = 1 then none
    else configSearch existsSync fuel (joinSep '/' (splitSep '/' currentDirectory).dropLast)

/-- part_000 lines 160-174: `getConfiguration`.  Starts at
`path.parse(filePath).dir`, runs the ascent loop, and on success loads the
configuration from `path.join(foundDirectory, ` the file name
`tslint.json)`; returns `null` (here `none`) when the loop exhausts the
components.  `existsSync` models `fs.existsSync` and `loadConfig` models
`linter.loadConfigurationFromPath` (reached only when a directory matched). -/
def getConfiguration (existsSync : List Char → Bool) (loadConfig : List Char → Config)
    (filePath : List Char) : Option Config :=
  (configSearch existsSync (splitSep '/' (pathParseDir filePath)).length
      (pathParseDir filePath)).map
    (fun dir => loadConfig (pathJoin dir tslintJson))

/-! #### The directories the loop actually visits -/

/-- The sequence of values taken by `currentDirectory` in the source loop:
the start directory, then the result of repeatedly dropping the last
`/`-component, ending at the first single-component value. -/
def visitedDirs : Nat → List Char → List (List Char)
  | 0, _ => []
  | fuel + 1, d =>
    if (splitSep '/' d).length = 1 then [d]
    else d :: visitedDirs fuel (joinSep '/' (splitSep '/' d).dropLast)

/-- No piece produced by `splitSep` contains the separator. -/
theorem splitSep_sep_free (sep : Char) :
    ∀ s : List Char, ∀ p ∈ splitSep sep s, sep ∉ p := by
  intro s
  induction s with
  | nil =>
    intro p hp
    simp only [splitSep, List.mem_singleton] at hp
    subst hp
    exact List.not_mem_nil sep
  | cons c rest ih =>
    intro p hp
    simp only [splitSep] at hp
    by_cases hc : c = sep
    · rw [if_pos hc] at hp
      rcases List.mem_cons.mp hp with hp | hp
      · subst hp; exact List.not_mem_nil sep
      · exact ih p hp
    · rw [if_neg hc] at hp
      rcases hr : splitSep sep rest with _ | ⟨h, t⟩
      · simp only [hr, List.mem_singleton] at hp
        subst hp
        intro hm
        rcases List.mem_cons.mp hm with hm | hm
        · exact hc hm.symm
        · exact List.not_mem_nil sep hm
      · simp only [hr] at hp
        rcases List.mem_cons.mp hp with hp | hp
        · subst hp
          intro hm
          rcases List.mem_cons.mp hm with hm | hm
          · exact hc hm.symm
          · exact ih h (by rw [hr]; exact List.mem_cons_self h t) hm
        · exact ih p (by rw [hr]; exact List.mem_cons_of_mem h hp)

/-- `splitSep` never returns the empty list. -/
theorem splitSep_ne_nil (sep : Char) (s : List Char) : splitSep sep s ≠ [] := by
  induction s with
  | nil => simp [splitSep]
  | cons c rest ih =>
    simp only [splitSep]
    by_cases hc : c = sep
    · simp [hc]
    · rw [if_neg hc]
      rcases hr : splitSep sep rest with _ | ⟨h, t⟩ <;> simp

/-- Splitting a separator-free string yields that one piece. -/
theorem splitSep_of_not_mem (sep : Char) (p : List Char) (h : sep ∉ p) :
    splitSep sep p = [p] := by
  induction p with
  | nil => rfl
  | cons c rest ih =>
    have hc : c ≠ sep := fun hcs => h (by rw [hcs]; exact List.mem_cons_self _ _)
    have hrest : sep ∉ rest := fun hm => h (List.mem_cons_of_mem _ hm)
    simp only [splitSep, if_neg hc, ih hrest]

/-- Splitting after prepending a separator-free piece and a separator. -/
theorem splitSep_append_sep (sep : Char) (p t : List Char) (h : sep ∉ p) :
    splitSep sep (p ++ sep :: t) = p :: splitSep sep t := by
  induction p with
  | nil => simp [splitSep]
  | cons c rest ih =>
    have hc : c ≠ sep := fun hcs => h (by rw [hcs]; exact List.mem_cons_self _ _)
    have hrest : sep ∉ rest := fun hm => h (List.mem_cons_of_mem _ hm)
    rw [List.cons_append]
    simp only [splitSep, if_neg hc, ih hrest]

/-- `splitSep` is a left inverse of `joinSep` on the lists `splitSep` can
produce: non-empty, with separator-free pieces. -/
theorem splitSep_joinSep (sep : Char) :
    ∀ parts : List (List Char), parts ≠ [] → (∀ p ∈ parts, sep ∉ p) →
      splitSep sep (joinSep sep parts) = parts := by
  intro parts
  induction parts with
  | nil => intro h _; exact absurd rfl h
  | cons p rest ih =>
    intro _ hfree
    rcases rest with _ | ⟨q, rest2⟩
    · simp only [joinSep]
      exact splitSep_of_not_mem sep p (hfree p (List.mem_cons_self _ _))
    · have hp : sep ∉ p := hfree p (List.mem_cons_self _ _)
      have hjoin : joinSep sep (p :: q :: rest2) = p ++ sep :: joinSep sep (q :: rest2) := rfl
      rw [hjoin, splitSep_append_sep sep p _ hp,
        ih (by simp) (fun x hx => hfree x (List.mem_cons_of_mem _ hx))]

/-- Dropping the last component of a multi-component split and re-joining
splits back to the dropped list: the loop removes exactly one component per
iteration. -/
theorem splitSep_joinSep_dropLast (d : List Char)
    (h2 : 2 ≤ (splitSep '/' d).length) :
    splitSep '/' (joinSep '/' (splitSep '/' d).dropLast) =
      (splitSep '/' d).dropLast := by
  have hne : (splitSep '/' d).dropLast ≠ [] := by
    have h1 : (splitSep '/' d).dropLast.length = (splitSep '/' d).length - 1 :=
      List.length_dropLast _
    intro hnil
    rw [hnil] at h1
    simp at h1
    omega
  have hfree : ∀ p ∈ (splitSep '/' d).dropLast, '/' ∉ p := fun p hp =>
    splitSep_sep_free '/' d p ((List.dropLast_sublist _).subset hp)
  exact splitSep_joinSep '/' _ hne hfree

/-- With fuel at least the component count, the ascent loop returns the first
visited directory containing a `tslint.json`, and `none` when no visited
directory contains one. -/
theorem configSearch_eq_find (existsSync : List Char → Bool) :
    ∀ (fuel : Nat) (d : List Char), (splitSep '/' d).length ≤ fuel →
      configSearch existsSync fuel d =
        (visitedDirs fuel d).find? (fun dir => existsSync (pathJoin dir tslintJson)) := by
  intro fuel
  induction fuel with
  | zero =>
    intro d hd
    have hpos : 0 < (splitSep '/' d).length :=
      List.length_pos.mpr (splitSep_ne_nil '/' d)
    omega
  | succ n ih =>
    intro d hd
    simp only [configSearch, visitedDirs]
    by_cases hfound : existsSync (pathJoin d tslintJson)
    · by_cases hlen : (splitSep '/' d).length = 1 <;>
        simp [hfound, hlen, List.find?]
    · by_cases hlen : (splitSep '/' d).length = 1
      · simp [hfound, hlen, List.find?]
      · have h2 : 2 ≤ (splitSep '/' d).length := by
          have hpos : 0 < (splitSep '/' d).length :=
            List.length_pos.mpr (splitSep_ne_nil '/' d)
          omega
        have hlen2 : (splitSep '/' (joinSep '/' (splitSep '/' d).dropLast)).length ≤ n := by
          rw [splitSep_joinSep_dropLast d h2, List.length_dropLast]
          omega
        simp only [hfound, hlen, if_false, Bool.false_eq_true, if_neg]
        rw [ih _ hlen2]
        simp [hfound, List.find?]

/-- The ascent checks one directory per remaining component: the visited list
has exactly as many entries as the start directory has `/`-components (when
given that much fuel). -/
theorem visitedDirs_length :
    ∀ (fuel : Nat) (d : List Char), (splitSep '/' d).length ≤ fuel →
      (visitedDirs fuel d).length = (splitSep '/' d).length := by
  intro fuel
  induction fuel with
  | zero =>
    intro d hd
    have hpos : 0 < (splitSep '/' d).length :=
      List.length_pos.mpr (splitSep_ne_nil '/' d)
    omega
  | succ n ih =>
    intro d hd
    simp only [visitedDirs]
    by_cases hlen : (splitSep '/' d).length = 1
    · simp [hlen]
    · have h2 : 2 ≤ (splitSep '/' d).length := by
        have hpos : 0 < (splitSep '/' d).length :=
          List.length_pos.mpr (splitSep_ne_nil '/' d)
        omega
      have hlen2 : (splitSep '/' (joinSep '/' (splitSep '/' d).dropLast)).length ≤ n := by
        rw [splitSep_joinSep_dropLast d h2, List.length_dropLast]
        omega
      simp only [if_neg hlen, List.length_cons]
      rw [ih _ hlen2, splitSep_joinSep_dropLast d h2, List.length_dropLast]
      omega

/-! #### C3: the resolver misses a configuration at the filesystem root -/

/-- Modelled from the spec: the parent directory of a directory (the spec's
ascent moves to the parent and stops when the current directory equals its own
parent, i.e. at the filesystem root).  On POSIX directories this is
`path.parse(d).dir` with the root `/` as its own parent. -/
def specParent (d : List Char) : List Char := pathParseDir d

/-- Modelled from the spec: the chain of ancestor directories of a file's
containing directory, following `specParent` until it reaches its fixpoint
(the filesystem root). -/
def specDirChain : Nat → List Char → List (List Char)
  | 0, d => [d]
  | n + 1, d => d :: (if specParent d = d then [] else specDirChain n (specParent d))

/-- Modelled from the spec: the ancestor directories of a file path, from its
containing directory up to and including the filesystem root. -/
def specAncestorDirs (filePath : List Char) : List (List Char) :=
  specDirChain (splitSep '/' filePath).length (pathParseDir filePath)

/-- The filesystem probe for the C3 failing input: a `tslint.json` exists at
the filesystem root `/` and nowhere else. -/
def rootOnlyExists (p : List Char) : Bool := p == str r"/tslint.json"

/-- C3 (code bug): for the file `/a/b.ts` with a `tslint.json` at the
filesystem root `/` and nowhere else, the root is an ancestor directory of the
file and holds a configuration file, yet `getConfiguration` returns `none`:
dropping the last `/`-component sends the directory `/a` to the empty string,
never to `/`, so `/tslint.json` is never probed — the final probe is the
cwd-relative `tslint.json`, contradicting the source's own comment that the
loop fails only with no config file at the root directory. -/
theorem rootConfig_missed :
    ((str r"/") ∈ specAncestorDirs (str r"/a/b.ts")) ∧
    rootOnlyExists (pathJoin (str r"/") tslintJson) = true ∧
    getConfiguration rootOnlyExists (fun p => ⟨p⟩) (str r"/a/b.ts") = none ∧
    pathJoin [] tslintJson = tslintJson := by
  decide

/-! ### Server state, environment and the instrumented `runTSLint`
(part_000 lines 65-71, 103-138, 201-256) -/

/-- The result of a lint run (`tslint.LintResult`), restricted to the
`failures` list the handlers read. -/
structure LintResult where
  failures : List RuleFailure
deriving DecidableEq, Repr

/-- The three module-level caches of the server (part_000 lines 65-71):
`document2Library` (document file path → library), `path2Library` (resolved
tslint module path → library) and `document2Configuration` (document file path
→ configuration).  JavaScript `Map`s are modelled as association lists whose
`set` prepends, so `lookup` sees the newest binding. -/
structure ServerState where
  document2Library : List (List Char × Library)
  path2Library : List (List Char × Library)
  document2Configuration : List (List Char × Config)
deriving DecidableEq, Repr

/-- The external collaborators of `runTSLint`, as functions: URI parsing
(`Uri.parse(uri).scheme` / `.fsPath`), the three-strategy `Files.resolve`
cascade of `loadLibrary` (part_000 lines 118-124, collapsed to one function of
the file's directory returning the resolved tslint path or `none`),
`require`, `fs.existsSync`, `linter.loadConfigurationFromPath`, the document
store reads, and the external lint execution itself.  Both generation branches
of the lint invocation (part_000 lines 244-253) produce a `tslint.LintResult`;
the adapter difference is folded into the single `lintExec` function. -/
structure LintEnv where
  uriScheme : List Char → List Char
  uriFsPath : List Char → List Char
  resolveTsLintPath : List Char → Option (List Char)
  requireLibrary : List Char → Library
  existsSync : List Char → Bool
  loadConfig : List Char → Config
  getText : List Char → List Char
  docVersion : List Char → Nat
  docText : List Char → List Char
  lintExec : List Char → List Char → Config → Library → LintResult

/-- The error log entries `runTSLint` can emit through `connection.console.error`
(part_000 lines 204, 215, 228). -/
inductive ErrKind where
  | invalidUri
  | noLibrary
  | noConfiguration
deriving DecidableEq, Repr

/-- Instrumentation of one `runTSLint` call: how many times `loadLibrary` ran
(a filesystem resolution of the tslint module), how many times
`getConfiguration` ran (a directory-ascent filesystem walk), how many times
`isTsLintVersion4` executed (the version probe: directly at part_000 line 244,
inside `getLinterFromLibrary` at lines 141 and 241, and inside
`getConfiguration` at line 172), and the errors logged. -/
structure LintTrace where
  configWalks : Nat
  libraryLoads : Nat
  versionProbes : Nat
  errors : List ErrKind
deriving DecidableEq, Repr

/-- part_000 lines 116-138: `loadLibrary`.  Resolves the tslint module path
from the file's directory; on success consults the `path2Library` cache and
`require`s (and caches) the module on a miss. -/
def loadLibrary (env : LintEnv) (s : ServerState) (filePath : List Char) :
    Option Library × ServerState :=
  match env.resolveTsLintPath (pathParseDir filePath) with
  | none => (none, s)
  | some tslintPath =>
    match s.path2Library.lookup tslintPath with
    | some library => (some library, s)
    | none =>
      (some (env.requireLibrary tslintPath),
       { s with path2Library :=
          (tslintPath, env.requireLibrary tslintPath) :: s.path2Library })

/-- part_000 lines 210-220: the library step of `runTSLint`.  Consults the
`document2Library` cache; on a miss calls `loadLibrary` (counted) and caches a
successful result under the document's file path.  Returns the library (or
`none`), the updated state and the number of `loadLibrary` calls. -/
def acquireLibrary (env : LintEnv) (s : ServerState) (filePath : List Char) :
    Option Library × ServerState × Nat :=
  match s.document2Library.lookup filePath with
  | some library => (some library, s, 0)
  | none =>
    match loadLibrary env s filePath with
    | (none, s1) => (none, s1, 1)
    | (some library, s1) =>
      (some library,
       { s1 with document2Library := (filePath, library) :: s1.document2Library }, 1)

/-- part_000 lines 223-233: the configuration step of `runTSLint`.  Consults
the `document2Configuration` cache keyed by the document's file path; on a
miss calls `getConfiguration` (one directory-ascent walk, counted) and caches
a successful result under the file path.  The last component counts the
version probes performed inside `getConfiguration` (line 172 runs
`getLinterFromLibrary` only when a configuration directory was found). -/
def acquireConfiguration (env : LintEnv) (s : ServerState) (filePath : List Char) :
    Option Config × ServerState × Nat × Nat :=
  match s.document2Configuration.lookup filePath with
  | some configuration => (some configuration, s, 0, 0)
  | none =>
    match getConfiguration env.existsSync env.loadConfig filePath with
    | none => (none, s, 1, 0)
    | some configuration =>
      (some configuration,
       { s with document2Configuration :=
          (filePath, configuration) :: s.document2Configuration }, 1, 1)

/-- part_000 lines 201-256: `runTSLint`.  Rejects non-`file` URI schemes;
acquires the library and configuration through the caches; then runs the lint
pass.  The success path performs two more version probes: one inside
`getLinterFromLibrary` (line 241) and one in the `isTsLintVersion4` branch
test (line 244).  Returns the lint result (or `none` on failure), the updated
cache state, and the instrumentation trace. -/
def runTSLint (env : LintEnv) (s : ServerState) (documentUri : List Char) :
    Option LintResult × ServerState × LintTrace :=
  if env.uriScheme documentUri ≠ str r"file" then
    (none, s, ⟨0, 0, 0, [ErrKind.invalidUri]⟩)
  else
    match acquireLibrary env s (env.uriFsPath documentUri) with
    | (none, s1, loads) => (none, s1, ⟨0, loads, 0, [ErrKind.noLibrary]⟩)
    | (some library, s1, loads) =>
      match acquireConfiguration env s1 (env.uriFsPath documentUri) with
      | (none, s2, walks, probes) =>
        (none, s2, ⟨walks, loads, probes, [ErrKind.noConfiguration]⟩)
      | (some configuration, s2, walks, probes) =>
        (some (env.lintExec (env.uriFsPath documentUri) (env.getText documentUri)
          configuration library), s2, ⟨walks, loads, probes + 2, []⟩)

/-- part_000 lines 86-92: the watched-`tslint.json`-changed notification
handler clears the configuration cache in full and touches nothing else (the
`forEach` only logs). -/
def onDidChangeWatchedFiles (s : ServerState) : ServerState :=
  { s with document2Configuration := [] }

/-- A diagnostics-replace event as sent by `connection.sendDiagnostics`. -/
structure DiagnosticsEvent where
  uri : List Char
  diagnostics : List Diagnostic
deriving DecidableEq, Repr

/-- part_000 lines 103-114: the `RunTSLintRequest` handler.  Runs
`runTSLint`, builds the diagnostics list (empty when lint failed, one
diagnostic per failure otherwise), and always sends exactly one
diagnostics-replace event for the requested URI. -/
def onRunTSLintRequest (env : LintEnv) (s : ServerState) (uri : List Char) :
    ServerState × List DiagnosticsEvent :=
  let r := runTSLint env s uri
  let diagnostics : List Diagnostic :=
    match r.1 with
    | none => []
    | some res => toDiagnostics res.failures
  (r.2.1, [⟨uri, diagnostics⟩])

/-! ### A concrete environment for the counterexamples and witnesses -/

/-- A concrete initial state: all three caches empty. -/
def s0 : ServerState := ⟨[], [], []⟩

/-- A concrete environment in which everything succeeds: every URI has the
`file` scheme and is its own fsPath, the tslint module resolves to one global
path, the loaded library reports version `5.0.0`, and a `tslint.json` exists
exactly in the directory `/d`. -/
def envOk : LintEnv where
  uriScheme := fun _ => str r"file"
  uriFsPath := fun uri => uri
  resolveTsLintPath := fun _ => some (str r"/d/node_modules/tslint")
  requireLibrary := fun _ => ⟨some ⟨5, 0, 0⟩⟩
  existsSync := fun p => p == str r"/d/tslint.json"
  loadConfig := fun p => ⟨p⟩
  getText := fun _ => []
  docVersion := fun _ => 7
  docText := fun _ => []
  lintExec := fun _ _ _ _ => ⟨[]⟩

/-- A concrete environment in which every request fails immediately: the URI
scheme is not `file`. -/
def envBad : LintEnv where
  uriScheme := fun _ => str r"untitled"
  uriFsPath := fun uri => uri
  resolveTsLintPath := fun _ => none
  requireLibrary := fun _ => ⟨none⟩
  existsSync := fun _ => false
  loadConfig := fun p => ⟨p⟩
  getText := fun _ => []
  docVersion := fun _ => 7
  docText := fun _ => []
  lintExec := fun _ _ _ _ => ⟨[]⟩

/-! ### C1: the configuration cache is keyed by file, not by directory -/

/-- C1 counterexample: lint `/d/a.ts` in `envOk` from the empty state — the
run succeeds and caches its configuration — then lint the sibling `/d/b.ts`:
the second request performs a fresh directory-ascent walk (`configWalks = 1`),
where the claim requires it to reuse the cached Configuration with no new
walk. -/
theorem configCache_sibling_walk_cex :
    ((runTSLint envOk s0 (str r"/d/a.ts")).1.isSome = true) ∧
    (((runTSLint envOk s0 (str r"/d/a.ts")).2.1.document2Configuration.lookup
        (str r"/d/a.ts")).isSome = true) ∧
    (runTSLint envOk (runTSLint envOk s0 (str r"/d/a.ts")).2.1
        (str r"/d/b.ts")).2.2.configWalks = 1 := by
  decide

/-- C1 as amended: the resolved Configuration is cached under the requesting
file's path, not the directory it was found in.  With the library cached for
the file, a request whose file path already has a cached configuration
performs no directory-ascent walk and lints with exactly the cached
configuration, while a request whose file path has no cached entry performs
one walk — even if a sibling file in the same directory already cached an
equal configuration. -/
theorem configCache_per_file (env : LintEnv) (s : ServerState) (uri : List Char)
    (library : Library)
    (hscheme : env.uriScheme uri = str r"file")
    (hlib : s.document2Library.lookup (env.uriFsPath uri) = some library) :
    (∀ configuration : Config,
      s.document2Configuration.lookup (env.uriFsPath uri) = some configuration →
      (runTSLint env s uri).2.2.configWalks = 0 ∧
      (runTSLint env s uri).1 =
        some (env.lintExec (env.uriFsPath uri) (env.getText uri)
          configuration library)) ∧
    (s.document2Configuration.lookup (env.uriFsPath uri) = none →
      (runTSLint env s uri).2.2.configWalks = 1) := by
  constructor
  · intro configuration hcfg
    simp only [runTSLint, hscheme, acquireLibrary, hlib, acquireConfiguration, hcfg]
    simp
  · intro hcfg
    simp only [runTSLint, hscheme, acquireLibrary, hlib, acquireConfiguration, hcfg]
    rcases hg : getConfiguration env.existsSync env.loadConfig (env.uriFsPath uri) with _ | c
    · simp
    · simp

/-- C1 amended witness: in `envOk`, after the first request for `/d/a.ts`, a
second request for the same file reuses the cached configuration without a
walk, by the theorem at that concrete state. -/
theorem configCache_per_file_witness :
    (runTSLint envOk (runTSLint envOk s0 (str r"/d/a.ts")).2.1
        (str r"/d/a.ts")).2.2.configWalks = 0 :=
  ((configCache_per_file envOk (runTSLint envOk s0 (str r"/d/a.ts")).2.1
      (str r"/d/a.ts") ⟨some ⟨5, 0, 0⟩⟩ rfl (by decide)).1
    ⟨str r"/d/tslint.json"⟩ (by decide)).1

/-! ### C2: the generation classification is re-derived on every lint run -/

/-- C2 counterexample: lint `/d/a.ts` twice in `envOk`.  The first run
succeeds (classifying the library while doing so); the second run hits both
caches yet still executes the version probe twice (`versionProbes = 2`),
where the claim requires the probe never to execute again after the first
classification. -/
theorem versionProbe_rerun_cex :
    ((runTSLint envOk s0 (str r"/d/a.ts")).1.isSome = true) ∧
    (runTSLint envOk (runTSLint envOk s0 (str r"/d/a.ts")).2.1
        (str r"/d/a.ts")).2.2.versionProbes = 2 := by
  decide

/-- C2 as amended: the ApiGeneration classification is not computed once at
load time — it is re-derived on every lint invocation.  Every successful
`runTSLint` call executes the version probe at least twice (in
`getLinterFromLibrary` and in the generation branch test), and the probe is a
pure function of the loaded library, so every derivation yields the same
classification (`detectGeneration_spec`). -/
theorem versionProbe_each_run (env : LintEnv) (s : ServerState) (uri : List Char)
    (h : (runTSLint env s uri).1.isSome = true) :
    2 ≤ (runTSLint env s uri).2.2.versionProbes := by
  by_cases hscheme : env.uriScheme uri ≠ str r"file"
  · simp [runTSLint, hscheme] at h
  · simp only [runTSLint, if_neg hscheme] at h ⊢
    rcases hl : acquireLibrary env s (env.uriFsPath uri) with ⟨_ | library, s1, loads⟩
    · simp [hl] at h
    · simp only [hl] at h ⊢
      rcases hc : acquireConfiguration env s1 (env.uriFsPath uri) with
        ⟨_ | configuration, s2, walks, probes⟩
      · simp [hc] at h
      · simp [hc]

/-- C2 amended witness: the theorem applied to the concrete successful second
run of `envOk` on `/d/a.ts`. -/
theorem versionProbe_each_run_witness :
    2 ≤ (runTSLint envOk (runTSLint envOk s0 (str r"/d/a.ts")).2.1
        (str r"/d/a.ts")).2.2.versionProbes :=
  versionProbe_each_run envOk (runTSLint envOk s0 (str r"/d/a.ts")).2.1
    (str r"/d/a.ts") (by decide)

/-! ### C9: a configuration-change notification clears only the configuration cache -/

/-- C9: the watched-files handler empties the configuration cache and leaves
both library caches untouched; consequently a subsequent lint request for a
file whose library is cached performs a fresh configuration walk
(`configWalks = 1`) without re-resolving the library (`libraryLoads = 0`). -/
theorem configChange_clears_only_config (env : LintEnv) (s : ServerState)
    (uri : List Char) (library : Library)
    (hscheme : env.uriScheme uri = str r"file")
    (hlib : s.document2Library.lookup (env.uriFsPath uri) = some library) :
    (onDidChangeWatchedFiles s).document2Configuration = [] ∧
    (onDidChangeWatchedFiles s).document2Library = s.document2Library ∧
    (onDidChangeWatchedFiles s).path2Library = s.path2Library ∧
    (runTSLint env (onDidChangeWatchedFiles s) uri).2.2.libraryLoads = 0 ∧
    (runTSLint env (onDidChangeWatchedFiles s) uri).2.2.configWalks = 1 := by
  refine ⟨rfl, rfl, rfl, ?_⟩
  have hlib2 : (onDidChangeWatchedFiles s).document2Library.lookup
      (env.uriFsPath uri) = some library := hlib
  have hcfg : (onDidChangeWatchedFiles s).document2Configuration.lookup
      (env.uriFsPath uri) = none := rfl
  simp only [runTSLint, hscheme, acquireLibrary, hlib2, acquireConfiguration, hcfg]
  rcases hg : getConfiguration env.existsSync env.loadConfig (env.uriFsPath uri) with _ | c
  · simp
  · simp

/-- C9 witness: the theorem applied after the first `envOk` request for
`/d/a.ts` (which cached the library), with the notification in between. -/
theorem configChange_clears_only_config_witness :
    (runTSLint envOk
      (onDidChangeWatchedFiles (runTSLint envOk s0 (str r"/d/a.ts")).2.1)
      (str r"/d/a.ts")).2.2.libraryLoads = 0 ∧
    (runTSLint envOk
      (onDidChangeWatchedFiles (runTSLint envOk s0 (str r"/d/a.ts")).2.1)
      (str r"/d/a.ts")).2.2.configWalks = 1 :=
  (configChange_clears_only_config envOk (runTSLint envOk s0 (str r"/d/a.ts")).2.1
    (str r"/d/a.ts") ⟨some ⟨5, 0, 0⟩⟩ rfl (by decide)).2.2.2

/-! ### C10: every run-lint request emits exactly one diagnostics-replace event -/

/-- C10: the fix-capable server's `RunTSLintRequest` handler emits exactly one
diagnostics-replace event per request, carrying the requested URI; when lint
fails the event carries an empty diagnostics list, and when lint succeeds it
carries one diagnostic per failure in order. -/
theorem runLint_single_event (env : LintEnv) (s : ServerState) (uri : List Char) :
    ∃ d : List Diagnostic,
      (onRunTSLintRequest env s uri).2 = [⟨uri, d⟩] ∧
      ((runTSLint env s uri).1 = none → d = []) ∧
      (∀ res : LintResult, (runTSLint env s uri).1 = some res →
        d = toDiagnostics res.failures) := by
  rcases hr : (runTSLint env s uri).1 with _ | res
  · refine ⟨[], ?_, fun _ => rfl, ?_⟩
    · simp [onRunTSLintRequest, hr]
    · intro res hres
      exact absurd hres.symm (by simp)
  · refine ⟨toDiagnostics res.failures, ?_, ?_, ?_⟩
    · simp [onRunTSLintRequest, hr]
    · intro hnone
      exact absurd hnone (by simp)
    · intro res2 hres
      injection hres with h
      rw [h]

/-- C10 witness: the theorem applied to a failing request (`envBad`, whose URI
scheme is not `file`): the single event carries an empty diagnostics list. -/
theorem runLint_single_event_witness :
    ∃ d : List Diagnostic,
      (onRunTSLintRequest envBad s0 (str r"/d/a.ts")).2 = [⟨str r"/d/a.ts", d⟩] ∧
      ((runTSLint envBad s0 (str r"/d/a.ts")).1 = none → d = []) ∧
      (∀ res : LintResult, (runTSLint envBad s0 (str r"/d/a.ts")).1 = some res →
        d = toDiagnostics res.failures) :=
  runLint_single_event envBad s0 (str r"/d/a.ts")

/-! ### The fix pipeline (part_000 lines 258-313) -/

/-- An LSP `TextEdit`. -/
structure TextEdit where
  range : Range
  newText : List Char
deriving DecidableEq, Repr

/-- The `TextEdit.replace` constructor of the language-server library: a
replace edit of the given range with the given text. -/
def TextEdit.replace (range : Range) (newText : List Char) : TextEdit :=
  ⟨range, newText⟩

/-- part_000 lines 28-31: `TSLintAutofixEdit` — a pair of positions plus the
replacement text. -/
structure TSLintAutofixEdit where
  range : Position × Position
  text : List Char
deriving DecidableEq, Repr

/-- Modelled from the spec: `document.positionAt(offset)` of the external
document text store — the line/character position of a character offset in
the snapshot text, counting `\n` line breaks.  Specified for offsets within
the text (the store clamps out-of-range offsets; the out-of-fuel branch here
is unreachable under that bound). -/
def positionAt : List Char → Nat → Position
  | _, 0 => ⟨0, 0⟩
  | [], _ + 1 => ⟨0, 0⟩
  | c :: rest, o + 1 =>
    if c = '\n' then
      ⟨(positionAt rest o).line + 1, (positionAt rest o).character⟩
    else if (positionAt rest o).line = 0 then
      ⟨0, (positionAt rest o).character + 1⟩
    else positionAt rest o

/-- Helper for `offsetAt`: consume `line` line breaks, then `character`
characters of the final line (clamping at line ends and at the end of the
text). -/
def offsetAtAux : List Char → Nat → Nat → Nat
  | [], _, _ => 0
  | c :: rest, 0, ch =>
    if ch = 0 then 0
    else if c = '\n' then 0
    else 1 + offsetAtAux rest 0 (ch - 1)
  | c :: rest, line + 1, ch =>
    if c = '\n' then 1 + offsetAtAux rest line ch
    else 1 + offsetAtAux rest (line + 1) ch

/-- Modelled from the spec: `document.offsetAt(position)` of the external
document text store — the character offset of a line/character position. -/
def offsetAt (text : List Char) (p : Position) : Nat :=
  offsetAtAux text p.line p.character

/-- Round trip: converting a valid offset to a position and back is the
identity. -/
theorem offsetAt_positionAt (text : List Char) :
    ∀ o : Nat, o ≤ text.length → offsetAt text (positionAt text o) = o := by
  induction text with
  | nil =>
    intro o ho
    have h0 : o = 0 := Nat.le_zero.mp (by simpa using ho)
    subst h0
    rfl
  | cons c rest ih =>
    intro o ho
    match o with
    | 0 => rfl
    | o + 1 =>
      have ho2 : o ≤ rest.length := by simpa using ho
      rcases hp : positionAt rest o with ⟨l, ch⟩
      have IH : offsetAtAux rest l ch = o := by
        have h := ih o ho2
        rw [offsetAt, hp] at h
        simpa using h
      simp only [offsetAt, positionAt, hp]
      by_cases hc : c = '\n'
      · rw [if_pos hc]
        simp only [offsetAtAux, if_pos hc]
        omega
      · rw [if_neg hc]
        cases l with
        | zero =>
          rw [if_pos rfl]
          simp only [offsetAtAux, Nat.succ_ne_zero, if_false, if_neg hc,
            Nat.add_sub_cancel]
          omega
        | succ l2 =>
          rw [if_neg (Nat.succ_ne_zero l2)]
          simp only [offsetAtAux, if_neg hc]
          omega

/-- part_000 lines 306-313: `convertReplacementToAutoFix` — positions come
from `document.positionAt` applied to the replacement's `start` and `end`
offsets; the text is carried over. -/
def convertReplacementToAutoFix (document : List Char) (repl : Replacement) :
    TSLintAutofixEdit :=
  { range := (positionAt document repl.start, positionAt document repl.stop)
    text := repl.text }

/-- part_000 line 296: `TextEdit.replace(Range.create(each.range[0],
each.range[1]), each.text || ` the empty string `)`.  JavaScript
`text || ` empty maps the empty string to itself and keeps every other
string, so on the modelled texts it is the identity. -/
def autoFixToTextEdit (each : TSLintAutofixEdit) : TextEdit :=
  TextEdit.replace ⟨each.range.1, each.range.2⟩ each.text

/-- part_000 lines 273-290: the per-failure fix normalization of the fix
handler.  A fix with a `replacements` field contributes that list (tslint4);
otherwise a non-array fix is wrapped in a one-element array and an array is
used as-is (tslint5); each replacement is converted with
`convertReplacementToAutoFix`. -/
def fixToAutoFixEdits (document : List Char) : Fix → List TSLintAutofixEdit
  | Fix.withReplacements replacements =>
    replacements.map (convertReplacementToAutoFix document)
  | Fix.single f => [f].map (convertReplacementToAutoFix document)
  | Fix.list fs => fs.map (convertReplacementToAutoFix document)

/-- part_000 lines 269-292: the `autoFixes` accumulation — one entry per
failure that has a fix whose converted edit list is non-empty, in failure
order. -/
def collectAutoFixes (document : List Char) : List RuleFailure → List (List TSLintAutofixEdit)
  | [] => []
  | failure :: rest =>
    match failure.fix with
    | none => collectAutoFixes document rest
    | some fix =>
      if (fixToAutoFixEdits document fix).length > 0 then
        fixToAutoFixEdits document fix :: collectAutoFixes document rest
      else collectAutoFixes document rest

/-- part_000 lines 294-298: the `textEdits` accumulation — each fix's edit
list is mapped to `TextEdit`s and concatenated onto the running list. -/
def synthesizeTextEdits (document : List Char) (failures : List RuleFailure) :
    List TextEdit :=
  (collectAutoFixes document failures).foldl
    (fun textEdits fix => textEdits ++ fix.map autoFixToTextEdit) []

/-- The fix request response (part_000 lines 45-49): the document version and
the edits. -/
structure FixTSLintResult where
  documentVersion : Nat
  edits : List TextEdit
deriving DecidableEq, Repr

/-- part_000 lines 258-304: the `FixTSLintRequest` handler.  Captures the
document version at request time, runs `runTSLint`, and returns the captured
version with an empty edit list on lint failure, or with the synthesized
edits (computed against the request-time document snapshot `docText`) on
success. -/
def onFixTSLintRequest (env : LintEnv) (s : ServerState) (uri : List Char) :
    FixTSLintResult × ServerState :=
  let r := runTSLint env s uri
  match r.1 with
  | none => (⟨env.docVersion uri, []⟩, r.2.1)
  | some lintErrors =>
    (⟨env.docVersion uri, synthesizeTextEdits (env.docText uri) lintErrors.failures⟩,
     r.2.1)

/-! ### C4: fix responses carry the request-time version; failures give no edits -/

/-- C4: for every fixLint request the response's `documentVersion` is the
document version captured at request time — in particular it is unchanged
when the lint-time text read (`getText`, the text a concurrent edit would
have changed) is replaced by any other function — and when lint fails to run
the response's edit list is empty. -/
theorem fixLint_version_and_failure (env : LintEnv) (s : ServerState) (uri : List Char) :
    (onFixTSLintRequest env s uri).1.documentVersion = env.docVersion uri ∧
    ((runTSLint env s uri).1 = none → (onFixTSLintRequest env s uri).1.edits = []) ∧
    (∀ g : List Char → List Char,
      (onFixTSLintRequest { env with getText := g } s uri).1.documentVersion =
        env.docVersion uri) := by
  refine ⟨?_, ?_, ?_⟩
  · rcases hr : (runTSLint env s uri).1 with _ | res <;>
      simp [onFixTSLintRequest, hr]
  · intro hr
    simp [onFixTSLintRequest, hr]
  · intro g
    rcases hr : (runTSLint { env with getText := g } s uri).1 with _ | res <;>
      simp [onFixTSLintRequest, hr]

/-- C4 witness: the theorem applied to the failing environment `envBad` — the
response carries the request-time version `7` and no edits. -/
theorem fixLint_version_and_failure_witness :
    (onFixTSLintRequest envBad s0 (str r"/x.ts")).1.documentVersion = 7 ∧
    (onFixTSLintRequest envBad s0 (str r"/x.ts")).1.edits = [] :=
  ⟨(fixLint_version_and_failure envBad s0 (str r"/x.ts")).1,
   (fixLint_version_and_failure envBad s0 (str r"/x.ts")).2.1 (by decide)⟩

/-! ### C5: fix normalization and failure-order concatenation -/

/-- Modelled from the spec (§4.6): normalize a fix to its ordered Replacement
list — a `replacements` field is used as that list; otherwise a list is used
as-is and a single Replacement is wrapped in a one-element list. -/
def normalizeFix : Fix → List Replacement
  | Fix.withReplacements rs => rs
  | Fix.single r => [r]
  | Fix.list rs => rs

/-- Modelled from the spec (§4.6): the synthesized edits are each fix-bearing
failure's normalized replacements, converted to `TextEdit`s, concatenated in
failure-list order with no sorting or overlap resolution. -/
def toTextEditsSpec (document : List Char) (failures : List RuleFailure) :
    List TextEdit :=
  failures.foldr
    (fun failure acc =>
      (match failure.fix with
       | none => []
       | some fix => (normalizeFix fix).map
           (fun r => autoFixToTextEdit (convertReplacementToAutoFix document r))) ++ acc)
    []

/-- Unfolding `toTextEditsSpec` one failure at a time. -/
theorem toTextEditsSpec_cons (document : List Char) (failure : RuleFailure)
    (rest : List RuleFailure) :
    toTextEditsSpec document (failure :: rest) =
      (match failure.fix with
       | none => []
       | some fix => (normalizeFix fix).map
           (fun r => autoFixToTextEdit (convertReplacementToAutoFix document r))) ++
      toTextEditsSpec document rest := rfl

/-- The handler's per-fix conversion is the spec normalization followed by the
per-replacement conversion. -/
theorem fixToAutoFixEdits_eq_normalize (document : List Char) (fix : Fix) :
    fixToAutoFixEdits document fix =
      (normalizeFix fix).map (convertReplacementToAutoFix document) := by
  cases fix <;> rfl

/-- A left fold that appends mapped chunks equals the prefix followed by the
flat concatenation of the chunks. -/
theorem foldl_append_map (g : TSLintAutofixEdit → TextEdit) :
    ∀ (l : List (List TSLintAutofixEdit)) (init : List TextEdit),
      l.foldl (fun acc x => acc ++ x.map g) init =
        init ++ l.foldr (fun x acc => x.map g ++ acc) [] := by
  intro l
  induction l with
  | nil => intro init; simp
  | cons x xs ih =>
    intro init
    simp only [List.foldl_cons, List.foldr_cons, ih]
    simp [List.append_assoc]

/-- The collected per-failure edit lists, flattened, equal the spec-shaped
concatenation (the handler's empty-list filter drops only empty chunks). -/
theorem collect_foldr_eq_spec (document : List Char) :
    ∀ failures : List RuleFailure,
      (collectAutoFixes document failures).foldr
        (fun x acc => x.map autoFixToTextEdit ++ acc) [] =
      toTextEditsSpec document failures := by
  intro failures
  induction failures with
  | nil => rfl
  | cons failure rest ih =>
    rw [toTextEditsSpec_cons]
    rcases hf : failure.fix with _ | fix
    · simp only [collectAutoFixes, hf]
      rw [ih]
      simp
    · simp only [collectAutoFixes, hf]
      by_cases hlen : (fixToAutoFixEdits document fix).length > 0
      · rw [if_pos hlen]
        simp only [List.foldr_cons]
        rw [ih, fixToAutoFixEdits_eq_normalize, List.map_map]
        rfl
      · rw [if_neg hlen]
        rw [ih]
        have hnil : fixToAutoFixEdits document fix = [] := by
          cases hfe : fixToAutoFixEdits document fix with
          | nil => rfl
          | cons a l => rw [hfe] at hlen; simp at hlen
        have hmap : (normalizeFix fix).map (convertReplacementToAutoFix document) = [] := by
          rw [← fixToAutoFixEdits_eq_normalize, hnil]
        have hnf : normalizeFix fix = [] := List.map_eq_nil_iff.mp hmap
        simp [hnf]

/-- C5: the fix synthesizer's edits are exactly the spec-described
normalization — `replacements` field as the ordered list, otherwise a list
as-is or a wrapped single Replacement — converted per replacement and
concatenated across failures in failure-list order with no sorting or overlap
resolution. -/
theorem fix_normalization_concat (document : List Char) (failures : List RuleFailure) :
    synthesizeTextEdits document failures = toTextEditsSpec document failures := by
  have h := foldl_append_map autoFixToTextEdit (collectAutoFixes document failures) []
  simp only [synthesizeTextEdits, h, List.nil_append]
  exact collect_foldr_eq_spec document failures

/-! ### C6: replacement-to-edit round trip -/

/-- C6: for a fix expressed as a single Replacement `[s, e)` with text `X`
over the linted text `T`, the synthesized edit's range, converted back to
offsets against `T`, is exactly `[s, e)` — so it spans exactly the characters
`T[s:e]` — and its new text is `X`. -/
theorem replacement_roundtrip (T : List Char) (s e : Nat) (X : List Char)
    (hse : s ≤ e) (he : e ≤ T.length) :
    offsetAt T (autoFixToTextEdit (convertReplacementToAutoFix T ⟨s, e, X⟩)).range.start = s ∧
    offsetAt T (autoFixToTextEdit (convertReplacementToAutoFix T ⟨s, e, X⟩)).range.stop = e ∧
    (autoFixToTextEdit (convertReplacementToAutoFix T ⟨s, e, X⟩)).newText = X ∧
    (T.take (offsetAt T
        (autoFixToTextEdit (convertReplacementToAutoFix T ⟨s, e, X⟩)).range.stop)).drop
      (offsetAt T
        (autoFixToTextEdit (convertReplacementToAutoFix T ⟨s, e, X⟩)).range.start) =
      (T.take e).drop s := by
  have hs : s ≤ T.length := le_trans hse he
  have h1 : offsetAt T (positionAt T s) = s := offsetAt_positionAt T s hs
  have h2 : offsetAt T (positionAt T e) = e := offsetAt_positionAt T e he
  refine ⟨h1, h2, rfl, ?_⟩
  rw [show (autoFixToTextEdit (convertReplacementToAutoFix T ⟨s, e, X⟩)).range.start =
      positionAt T s from rfl,
    show (autoFixToTextEdit (convertReplacementToAutoFix T ⟨s, e, X⟩)).range.stop =
      positionAt T e from rfl, h1, h2]

/-- C6 witness: the theorem at the concrete text `var x;` with the single
replacement `[0, 3)` ↦ `let`. -/
theorem replacement_roundtrip_witness :
    offsetAt (str r"var x;")
      (autoFixToTextEdit (convertReplacementToAutoFix (str r"var x;")
        ⟨0, 3, str r"let"⟩)).range.start = 0 ∧
    offsetAt (str r"var x;")
      (autoFixToTextEdit (convertReplacementToAutoFix (str r"var x;")
        ⟨0, 3, str r"let"⟩)).range.stop = 3 ∧
    (autoFixToTextEdit (convertReplacementToAutoFix (str r"var x;")
        ⟨0, 3, str r"let"⟩)).newText = str r"let" :=
  ⟨(replacement_roundtrip (str r"var x;") 0 3 (str r"let") (by decide) (by decide)).1,
   (replacement_roundtrip (str r"var x;") 0 3 (str r"let") (by decide) (by decide)).2.1,
   (replacement_roundtrip (str r"var x;") 0 3 (str r"let") (by decide) (by decide)).2.2.1⟩

end TSLinter
